import Mathlib

/-!
Verification development for `tools/benchmark_runner.py`.

The Python module loads Google Benchmark JSON results into name-to-time
tables, merges tables from several files, compares a baseline table with a
current table, renders a textual report, and orchestrates git worktrees for
comparing two commits.  This file shallowly embeds those operations:

* Python dicts holding benchmark results become insertion-ordered
  association lists (`Table`) with unique keys maintained by `dinsert`.
* JSON documents (as produced by `json.load`) become the `Json` type;
  Python exceptions escaping a function become `Except` errors.
* Python floats carrying benchmark times become rationals; the infinity
  sentinel produced by `compare_results` becomes `PyFloat.inf`.
* `SystemExit` conditions of the directory loader and the comparator
  become explicit error values.
* String comparison (used by `sorted`) is code-point lexicographic order,
  embedded computably as `strLt`/`strLe` over the character data.
-/

namespace BenchRunner

/-! ## Code-point lexicographic string order

Python compares strings lexicographically by Unicode code point; `sorted`
uses this order.  We embed it directly over the character lists so that it
evaluates inside the kernel. -/

/-- Strict lexicographic order on character lists by code point. -/
def lexLt : List Char → List Char → Bool
  | _, [] => false
  | [], _ :: _ => true
  | a :: as, b :: bs =>
    if a < b then true
    else if b < a then false
    else lexLt as bs

/-- Python `a < b` on strings. -/
def strLt (a b : String) : Bool := lexLt a.data b.data

/-- Python `a <= b` on strings (total order, so the negation of `b < a`). -/
def strLe (a b : String) : Bool := !(strLt b a)

/-- Propositional form of `strLe`, the relation `sorted` sorts by. -/
def strLeP (a b : String) : Prop := strLe a b = true

/-- Propositional form of `strLt`. -/
def strLtP (a b : String) : Prop := strLt a b = true

instance : DecidableRel strLeP := fun _ _ => inferInstanceAs (Decidable (_ = true))

instance : DecidableRel strLtP := fun _ _ => inferInstanceAs (Decidable (_ = true))

theorem lexLt_irrefl : ∀ l : List Char, lexLt l l = false
  | [] => rfl
  | a :: as => by simp [lexLt, lexLt_irrefl as]

theorem lexLt_asymm : ∀ {l₁ l₂ : List Char}, lexLt l₁ l₂ = true → lexLt l₂ l₁ = false
  | [], [], h => by simp [lexLt] at h
  | [], _ :: _, _ => rfl
  | _ :: _, [], h => by simp [lexLt] at h
  | a :: as, b :: bs, h => by
    by_cases hab : a < b
    · simp [lexLt, hab, asymm hab]
    · by_cases hba : b < a
      · simp [lexLt, hab, hba] at h
      · have : lexLt bs as = false := lexLt_asymm (by simpa [lexLt, hab, hba] using h)
        simp [lexLt, hab, hba, this]

theorem lexLt_connex :
    ∀ {l₁ l₂ : List Char}, lexLt l₁ l₂ = false → lexLt l₂ l₁ = false → l₁ = l₂
  | [], [], _, _ => rfl
  | [], _ :: _, h₁, _ => by simp [lexLt] at h₁
  | _ :: _, [], _, h₂ => by simp [lexLt] at h₂
  | a :: as, b :: bs, h₁, h₂ => by
    by_cases hab : a < b
    · simp [lexLt, hab] at h₁
    · by_cases hba : b < a
      · simp [lexLt, hba, hab] at h₂
      · have hc : a = b := le_antisymm (not_lt.mp hba) (not_lt.mp hab)
        have h₁' : lexLt as bs = false := by simpa [lexLt, hab, hba] using h₁
        have h₂' : lexLt bs as = false := by simpa [lexLt, hab, hba] using h₂
        rw [hc, lexLt_connex h₁' h₂']

theorem lexLt_trans :
    ∀ {l₁ l₂ l₃ : List Char}, lexLt l₁ l₂ = true → lexLt l₂ l₃ = true → lexLt l₁ l₃ = true
  | _, _, [], _, h₂ => by simp [lexLt] at h₂
  | _, [], _ :: _, h₁, _ => by simp [lexLt] at h₁
  | [], _ :: _, _ :: _, _, _ => rfl
  | a :: as, b :: bs, c :: cs, h₁, h₂ => by
    by_cases hab : a < b
    · by_cases hbc : b < c
      · simp [lexLt, lt_trans hab hbc]
      · by_cases hcb : c < b
        · simp [lexLt, hbc, hcb] at h₂
        · have hbc' : b = c := le_antisymm (not_lt.mp hcb) (not_lt.mp hbc)
          simp [lexLt, hbc' ▸ hab]
    · by_cases hba : b < a
      · simp [lexLt, hab, hba] at h₁
      · have hab' : a = b := le_antisymm (not_lt.mp hba) (not_lt.mp hab)
        subst hab'
        have h₁' : lexLt as bs = true := by simpa [lexLt, hab, hba] using h₁
        by_cases hac : a < c
        · simp [lexLt, hac]
        · by_cases hca : c < a
          · simp [lexLt, hac, hca] at h₂
          · have h₂' : lexLt bs cs = true := by simpa [lexLt, hac, hca] using h₂
            simp [lexLt, hac, hca, lexLt_trans h₁' h₂']

theorem strLt_asymm {a b : String} (h : strLt a b = true) : strLt b a = false :=
  lexLt_asymm h

theorem strLe_of_strLt {a b : String} (h : strLt a b = true) : strLe a b = true := by
  simp [strLe, strLt_asymm h]

theorem strLe_total (a b : String) : strLeP a b ∨ strLeP b a := by
  rcases Bool.eq_false_or_eq_true (strLt b a) with h | h
  · exact Or.inr (by simpa [strLeP, strLe, strLt] using lexLt_asymm h)
  · exact Or.inl (by simpa [strLeP, strLe] using h)

theorem strLe_trans {a b c : String} (h₁ : strLeP a b) (h₂ : strLeP b c) : strLeP a c := by
  have h₁' : lexLt b.data a.data = false := by simpa [strLeP, strLe, strLt] using h₁
  have h₂' : lexLt c.data b.data = false := by simpa [strLeP, strLe, strLt] using h₂
  have hca : lexLt c.data a.data = false := by
    rcases Bool.eq_false_or_eq_true (lexLt c.data a.data) with h | h
    · rcases Bool.eq_false_or_eq_true (lexLt a.data b.data) with hab | hab
      · exact absurd (lexLt_trans h hab) (by simp [h₂'])
      · have hd : a.data = b.data := lexLt_connex hab h₁'
        rw [hd] at h
        exact absurd h (by simp [h₂'])
    · exact h
  simpa [strLeP, strLe, strLt] using hca

theorem strLe_antisymm {a b : String} (h₁ : strLeP a b) (h₂ : strLeP b a) : a = b := by
  have h₁' : lexLt b.data a.data = false := by simpa [strLeP, strLe, strLt] using h₁
  have h₂' : lexLt a.data b.data = false := by simpa [strLeP, strLe, strLt] using h₂
  cases a with
  | mk da =>
    cases b with
    | mk db => exact congrArg String.mk (lexLt_connex h₂' h₁')

instance : IsTotal String strLeP := ⟨strLe_total⟩

instance : IsTrans String strLeP := ⟨fun _ _ _ => strLe_trans⟩

instance : IsAntisymm String strLeP := ⟨fun _ _ => strLe_antisymm⟩

theorem strLt_of_strLe_of_ne {a b : String} (h : strLeP a b) (hne : a ≠ b) : strLtP a b := by
  have h' : lexLt b.data a.data = false := by simpa [strLeP, strLe, strLt] using h
  rcases Bool.eq_false_or_eq_true (strLt a b) with ht | hf
  · exact ht
  · have hd : a.data = b.data := lexLt_connex hf h'
    exact absurd (by cases a; cases b; exact congrArg String.mk hd) hne

/-- A `strLeP`-sorted list without duplicates is strictly sorted. -/
theorem sorted_strLtP_of_sorted_strLeP {l : List String}
    (hs : l.Sorted strLeP) (hn : l.Nodup) : l.Sorted strLtP :=
  (hs.and hn).imp fun h => strLt_of_strLe_of_ne h.1 h.2

/-! ## JSON values

`Json` models the result of Python `json.load`: `null`, booleans, numbers,
strings, arrays, and objects.  JSON numbers are embedded as rationals
(Python ints and floats are collapsed; JSON number literals are finite
decimals, hence rational).  Object fields keep their textual order;
duplicate keys behave as in Python, where the last occurrence wins. -/

/-- A parsed JSON document. -/
inductive Json where
  | null
  | bool (b : Bool)
  | num (q : ℚ)
  | str (s : String)
  | arr (elems : List Json)
  | obj (fields : List (String × Json))

/-- Structural equality test on JSON values (deriving is unavailable for
this nested inductive, so it is written out). -/
def Json.beq : Json → Json → Bool
  | .null, .null => true
  | .bool a, .bool b => a == b
  | .num a, .num b => a == b
  | .str a, .str b => a == b
  | .arr as, .arr bs => beqList as bs
  | .obj as, .obj bs => beqFields as bs
  | _, _ => false
where
  beqList : List Json → List Json → Bool
    | [], [] => true
    | a :: as, b :: bs => Json.beq a b && beqList as bs
    | _, _ => false
  beqFields : List (String × Json) → List (String × Json) → Bool
    | [], [] => true
    | (k, a) :: as, (k', b) :: bs => k == k' && Json.beq a b && beqFields as bs
    | _, _ => false

mutual

theorem Json.eq_of_beq : ∀ (a b : Json), Json.beq a b = true → a = b
  | .null, .null, _ => rfl
  | .bool _, .bool _, h => by simp [Json.beq] at h; simp [h]
  | .num _, .num _, h => by simp [Json.beq] at h; simp [h]
  | .str _, .str _, h => by simp [Json.beq] at h; simp [h]
  | .arr as, .arr bs, h => by
      rw [Json.eqList_of_beq as bs (by simpa [Json.beq] using h)]
  | .obj as, .obj bs, h => by
      rw [Json.eqFields_of_beq as bs (by simpa [Json.beq] using h)]
  | .null, .bool _, h => by simp [Json.beq] at h
  | .null, .num _, h => by simp [Json.beq] at h
  | .null, .str _, h => by simp [Json.beq] at h
  | .null, .arr _, h => by simp [Json.beq] at h
  | .null, .obj _, h => by simp [Json.beq] at h
  | .bool _, .null, h => by simp [Json.beq] at h
  | .bool _, .num _, h => by simp [Json.beq] at h
  | .bool _, .str _, h => by simp [Json.beq] at h
  | .bool _, .arr _, h => by simp [Json.beq] at h
  | .bool _, .obj _, h => by simp [Json.beq] at h
  | .num _, .null, h => by simp [Json.beq] at h
  | .num _, .bool _, h => by simp [Json.beq] at h
  | .num _, .str _, h => by simp [Json.beq] at h
  | .num _, .arr _, h => by simp [Json.beq] at h
  | .num _, .obj _, h => by simp [Json.beq] at h
  | .str _, .null, h => by simp [Json.beq] at h
  | .str _, .bool _, h => by simp [Json.beq] at h
  | .str _, .num _, h => by simp [Json.beq] at h
  | .str _, .arr _, h => by simp [Json.beq] at h
  | .str _, .obj _, h => by simp [Json.beq] at h
  | .arr _, .null, h => by simp [Json.beq] at h
  | .arr _, .bool _, h => by simp [Json.beq] at h
  | .arr _, .num _, h => by simp [Json.beq] at h
  | .arr _, .str _, h => by simp [Json.beq] at h
  | .arr _, .obj _, h => by simp [Json.beq] at h
  | .obj _, .null, h => by simp [Json.beq] at h
  | .obj _, .bool _, h => by simp [Json.beq] at h
  | .obj _, .num _, h => by simp [Json.beq] at h
  | .obj _, .str _, h => by simp [Json.beq] at h
  | .obj _, .arr _, h => by simp [Json.beq] at h

theorem Json.eqList_of_beq : ∀ (as bs : List Json), Json.beq.beqList as bs = true → as = bs
  | [], [], _ => rfl
  | [], _ :: _, h => by simp [Json.beq.beqList] at h
  | _ :: _, [], h => by simp [Json.beq.beqList] at h
  | a :: as, b :: bs, h => by
      have h' := h
      simp only [Json.beq.beqList, Bool.and_eq_true] at h'
      rw [Json.eq_of_beq a b h'.1, Json.eqList_of_beq as bs h'.2]

theorem Json.eqFields_of_beq :
    ∀ (as bs : List (String × Json)), Json.beq.beqFields as bs = true → as = bs
  | [], [], _ => rfl
  | [], _ :: _, h => by simp [Json.beq.beqFields] at h
  | _ :: _, [], h => by simp [Json.beq.beqFields] at h
  | (k, a) :: as, (k', b) :: bs, h => by
      have h' := h
      simp only [Json.beq.beqFields, Bool.and_eq_true, beq_iff_eq] at h'
      rw [h'.1.1, Json.eq_of_beq a b h'.1.2, Json.eqFields_of_beq as bs h'.2]

end

mutual

theorem Json.beq_refl : ∀ (a : Json), Json.beq a a = true
  | .null => rfl
  | .bool _ => by simp [Json.beq]
  | .num _ => by simp [Json.beq]
  | .str _ => by simp [Json.beq]
  | .arr as => by simpa [Json.beq] using Json.beqList_refl as
  | .obj as => by simpa [Json.beq] using Json.beqFields_refl as

theorem Json.beqList_refl : ∀ (as : List Json), Json.beq.beqList as as = true
  | [] => rfl
  | a :: as => by
      simp only [Json.beq.beqList, Bool.and_eq_true]
      exact ⟨Json.beq_refl a, Json.beqList_refl as⟩

theorem Json.beqFields_refl : ∀ (as : List (String × Json)), Json.beq.beqFields as as = true
  | [] => rfl
  | (k, a) :: as => by
      simp only [Json.beq.beqFields, Bool.and_eq_true, beq_iff_eq]
      exact ⟨⟨trivial, Json.beq_refl a⟩, Json.beqFields_refl as⟩

end

instance : DecidableEq Json := fun a b =>
  decidable_of_iff (Json.beq a b = true)
    ⟨Json.eq_of_beq a b, fun h => h ▸ Json.beq_refl a⟩

/-! ## Python dicts of benchmark times

A Python `Dict[name, float]` is an insertion-ordered association list with
unique keys.  `dinsert` is `d[k] = v` (replace in place if the key exists,
append otherwise), `dlookup` is `d[k]` / `d.get(k)`, and `dupdate` is
`d.update(other)`.  Keys are a parameter: the comparison tables are keyed
by strings, while a table built by the loader is keyed by the JSON value
found in the `name` field (Python accepts any hashable name as a key). -/

/-- A Python dict mapping benchmark names to times. -/
abbrev Table (κ : Type) := List (κ × ℚ)

variable {κ : Type} [DecidableEq κ]

/-- The keys of a table, in insertion order. -/
def dkeys (d : Table κ) : List κ := d.map Prod.fst

/-- Python `d[k]` / `d.get(k)`: the value of the first (equivalently, for a
dict, the unique) entry with key `k`. -/
def dlookup : Table κ → κ → Option ℚ
  | [], _ => none
  | (k', v) :: d, k => if k = k' then some v else dlookup d k

/-- Replace the value of an entry when its key is `k`, leave it alone
otherwise (the in-place overwrite performed by a dict assignment). -/
def overwriteEntry (k : κ) (v : ℚ) (p : κ × ℚ) : κ × ℚ :=
  if p.1 = k then (k, v) else p

/-- Python `d[k] = v`: overwrite the value in place if the key is present,
otherwise append a new entry. -/
def dinsert (d : Table κ) (k : κ) (v : ℚ) : Table κ :=
  if (dlookup d k).isSome then d.map (overwriteEntry k v)
  else d ++ [(k, v)]

theorem overwriteEntry_pos {k k' : κ} {v v' : ℚ} (h : k' = k) :
    overwriteEntry k v (k', v') = (k, v) := if_pos h

theorem overwriteEntry_neg {k k' : κ} {v v' : ℚ} (h : ¬k' = k) :
    overwriteEntry k v (k', v') = (k', v') := if_neg h

theorem dlookup_cons (k k' : κ) (v : ℚ) (d : Table κ) :
    dlookup ((k', v) :: d) k = if k = k' then some v else dlookup d k := rfl

/-- Python `d.update(other)`: insert every entry of `other` into `d`,
left to right. -/
def dupdate (d other : Table κ) : Table κ :=
  other.foldl (fun acc p => dinsert acc p.1 p.2) d

theorem dlookup_append (d₁ d₂ : Table κ) (k : κ) :
    dlookup (d₁ ++ d₂) k = (dlookup d₁ k).or (dlookup d₂ k) := by
  induction d₁ with
  | nil => simp [dlookup]
  | cons p d ih =>
    obtain ⟨k', v⟩ := p
    by_cases h : k = k' <;> simp [dlookup, h, ih]

theorem dlookup_eq_none_iff {d : Table κ} {k : κ} :
    dlookup d k = none ↔ k ∉ dkeys d := by
  induction d with
  | nil => simp [dlookup, dkeys]
  | cons p d ih =>
    obtain ⟨k', v⟩ := p
    by_cases h : k = k'
    · subst h
      simp [dlookup, dkeys]
    · simp [dlookup, dkeys, h, ih]

theorem dlookup_isSome_iff {d : Table κ} {k : κ} :
    (dlookup d k).isSome = true ↔ k ∈ dkeys d := by
  by_cases hm : k ∈ dkeys d
  · rcases ho : dlookup d k with _ | v
    · exact (dlookup_eq_none_iff.mp ho hm).elim
    · simp [hm]
  · simp [hm, dlookup_eq_none_iff.mpr hm]

theorem dlookup_map_overwrite {d : Table κ} {k : κ} (v : ℚ) (hk : k ∈ dkeys d) :
    dlookup (d.map (overwriteEntry k v)) k = some v := by
  induction d with
  | nil => simp [dkeys] at hk
  | cons p d ih =>
    obtain ⟨k', v'⟩ := p
    rw [List.map_cons]
    by_cases h : k' = k
    · rw [overwriteEntry_pos h, dlookup_cons, if_pos rfl]
    · have hk' : k ∈ dkeys d := by
        rcases (by simpa [dkeys] using hk : k = k' ∨ k ∈ dkeys d) with he | hm
        · exact absurd he.symm h
        · exact hm
      have hne : ¬k = k' := fun e => h e.symm
      rw [overwriteEntry_neg h, dlookup_cons, if_neg hne]
      exact ih hk'

theorem dlookup_map_other {d : Table κ} {k k' : κ} (v : ℚ) (hne : k' ≠ k) :
    dlookup (d.map (overwriteEntry k v)) k' = dlookup d k' := by
  induction d with
  | nil => simp [dlookup]
  | cons p d ih =>
    obtain ⟨k₁, v₁⟩ := p
    rw [List.map_cons]
    by_cases h : k₁ = k
    · rw [overwriteEntry_pos h, dlookup_cons, dlookup_cons, if_neg hne,
        if_neg (fun e => hne (e.trans h) : ¬k' = k₁)]
      exact ih
    · rw [overwriteEntry_neg h, dlookup_cons, dlookup_cons]
      by_cases h' : k' = k₁
      · rw [if_pos h', if_pos h']
      · rw [if_neg h', if_neg h']
        exact ih

/-- Characterisation of `dinsert`: the inserted key now maps to the new
value and every other key is untouched. -/
theorem dlookup_dinsert (d : Table κ) (k k' : κ) (v : ℚ) :
    dlookup (dinsert d k v) k' = if k' = k then some v else dlookup d k' := by
  by_cases hmem : (dlookup d k).isSome
  · by_cases hk : k' = k
    · subst hk
      simp [dinsert, hmem, dlookup_map_overwrite v (dlookup_isSome_iff.mp hmem)]
    · simp [dinsert, hmem, dlookup_map_other v hk, hk]
  · have hnone : dlookup d k = none := Option.not_isSome_iff_eq_none.mp hmem
    by_cases hk : k' = k
    · subst hk
      simp [dinsert, hmem, dlookup_append, hnone, dlookup]
    · simp [dinsert, hmem, dlookup_append, hk, dlookup]

theorem dkeys_dinsert_of_mem {d : Table κ} {k : κ} (v : ℚ) (hk : k ∈ dkeys d) :
    dkeys (dinsert d k v) = dkeys d := by
  have hs : (dlookup d k).isSome := dlookup_isSome_iff.mpr hk
  simp only [dinsert, hs, if_true, dkeys, List.map_map]
  refine List.map_congr_left fun p _ => ?_
  obtain ⟨k', v'⟩ := p
  by_cases h : k' = k
  · rw [Function.comp_apply, overwriteEntry_pos h]
    simpa using h.symm
  · rw [Function.comp_apply, overwriteEntry_neg h]

theorem dkeys_dinsert_of_not_mem {d : Table κ} {k : κ} (v : ℚ) (hk : k ∉ dkeys d) :
    dkeys (dinsert d k v) = dkeys d ++ [k] := by
  have hs : dlookup d k = none := dlookup_eq_none_iff.mpr hk
  simp [dinsert, hs, dkeys]

theorem nodup_dkeys_dinsert {d : Table κ} (k : κ) (v : ℚ) (h : (dkeys d).Nodup) :
    (dkeys (dinsert d k v)).Nodup := by
  by_cases hk : k ∈ dkeys d
  · rw [dkeys_dinsert_of_mem v hk]
    exact h
  · rw [dkeys_dinsert_of_not_mem v hk]
    refine List.Nodup.append h (List.nodup_singleton k) fun a ha hb => ?_
    rw [List.mem_singleton] at hb
    subst hb
    exact hk ha

/-- `d.update(other)` looks up in `other` first: later sources override
earlier ones (`other` must be a genuine dict, that is, have unique keys). -/
theorem dlookup_dupdate (d : Table κ) {other : Table κ} (k : κ)
    (h : (dkeys other).Nodup) :
    dlookup (dupdate d other) k = (dlookup other k).or (dlookup d k) := by
  induction other generalizing d with
  | nil => simp [dupdate, dlookup]
  | cons p rest ih =>
    obtain ⟨k₁, v₁⟩ := p
    have hcons : (k₁ :: dkeys rest).Nodup := h
    obtain ⟨hnotmem, hrest⟩ := List.nodup_cons.mp hcons
    have hstep : dupdate d ((k₁, v₁) :: rest) = dupdate (dinsert d k₁ v₁) rest := rfl
    rw [hstep, ih _ hrest]
    by_cases hk : k = k₁
    · subst hk
      rw [dlookup_eq_none_iff.mpr hnotmem, dlookup_cons, if_pos rfl,
        dlookup_dinsert, if_pos rfl]
      simp
    · rw [dlookup_cons, if_neg hk, dlookup_dinsert, if_neg hk]

theorem nodup_dkeys_dupdate {d other : Table κ} (h : (dkeys d).Nodup) :
    (dkeys (dupdate d other)).Nodup := by
  induction other generalizing d with
  | nil => exact h
  | cons p rest ih => exact ih (nodup_dkeys_dinsert p.1 p.2 h)

theorem ne_nil_of_dlookup_isSome {d : Table κ} {k : κ} {v : ℚ}
    (h : dlookup d k = some v) : d ≠ [] := by
  intro hnil
  rw [hnil] at h
  simp [dlookup] at h

/-! ## Python runtime fragments used by the loader

`load_benchmarks_from_file` can raise genuine Python exceptions on
sufficiently malformed entries (for example `entry.get` on a non-dict
raises `AttributeError`); these exception classes are embedded as
`PyErr`. -/

/-- A Python exception escaping the loader or the renderer. -/
inductive PyErr where
  | attributeError (msg : String)
  | typeError (msg : String)
  | valueError (msg : String)
  | zeroDivisionError (msg : String)
  deriving DecidableEq

/-- Python dict lookup `fields.get(k)` on the field list of a JSON object:
with duplicate keys (which `json.load` tolerates) the last occurrence
wins, so the tail is searched first. -/
def jget : List (String × Json) → String → Option Json
  | [], _ => none
  | (k', v) :: fs, k =>
    match jget fs k with
    | some r => some r
    | none => if k = k' then some v else none

/-- Python truthiness of a JSON value (`if not name: ...`). -/
def truthy : Json → Bool
  | .null => false
  | .bool b => b
  | .num q => decide (q ≠ 0)
  | .str s => decide (s ≠ "")
  | .arr xs => decide (xs ≠ [])
  | .obj fs => decide (fs ≠ [])

/-- Python `for entry in x`: lists iterate over their elements, strings
over their one-character substrings, dicts over their keys (first
occurrence order); other values raise `TypeError`. -/
def pyIter : Json → Except PyErr (List Json)
  | .arr xs => .ok xs
  | .str s => .ok (s.data.map fun c => .str (String.mk [c]))
  | .obj fs => .ok ((dedupKeysFirst (fs.map Prod.fst)).map .str)
  | .null => .error (.typeError "NoneType object is not iterable")
  | .bool _ => .error (.typeError "bool object is not iterable")
  | .num _ => .error (.typeError "number object is not iterable")
where
  /-- Distinct dict keys in first-occurrence order. -/
  dedupKeysFirst : List String → List String :=
    List.foldl (fun acc k => if k ∈ acc then acc else acc ++ [k]) []

/-- Python `float(x)` on a JSON value.  Numbers convert to themselves and
booleans to 0 or 1; `None`, lists and dicts raise `TypeError`.  Python
would parse numeric strings, but benchmark JSON stores times as numbers
and no property below depends on the numeric-string case, so strings are
uniformly embedded as the `ValueError` raised for non-numeric text. -/
def floatConv : Json → Except PyErr ℚ
  | .num q => .ok q
  | .bool b => .ok (if b then 1 else 0)
  | .str _ => .error (.valueError "could not convert string to float")
  | .null => .error (.typeError "float argument must be a string or a real number, not NoneType")
  | .arr _ => .error (.typeError "float argument must be a string or a real number, not list")
  | .obj _ => .error (.typeError "float argument must be a string or a real number, not dict")

/-- Whether a JSON value may be used as a Python dict key (lists and
dicts are unhashable). -/
def hashable : Json → Bool
  | .arr _ => false
  | .obj _ => false
  | _ => true

/-! ## ResultLoader: `load_benchmarks_from_file` -/

/-- Diagnostic printed when the JSON root is not an object. -/
def skipRootMsg : String :=
  "[bench:load] Skipping: JSON root is not an object, expected object."

/-- Diagnostic printed when neither entries key is present. -/
def skipKeyMsg : String :=
  "[bench:load] Skipping: no benchmark or benchmarks key found."

/-- One iteration of the entry loop of `load_benchmarks_from_file`
(lines 167-173): skip entries with a falsy or absent name and entries
missing the time key, otherwise store `float(entry[time_key])` under the
name.  Non-dict entries raise `AttributeError` at `entry.get`, exactly as
in Python. -/
def procEntry (time_key : String) (acc : Table Json) (entry : Json) :
    Except PyErr (Table Json) :=
  match entry with
  | .obj fs =>
    match jget fs "name" with
    | none => .ok acc
    | some nm =>
      if truthy nm = false then .ok acc
      else
        match jget fs time_key with
        | none => .ok acc
        | some tv =>
          match floatConv tv with
          | .error e => .error e
          | .ok q =>
            if hashable nm then .ok (dinsert acc nm q)
            else .error (.typeError "unhashable type used as dict key")
  | _ => .error (.attributeError "entry object has no attribute get")

/-- The entry loop itself. -/
def foldEntries (time_key : String) : Table Json → List Json → Except PyErr (Table Json)
  | acc, [] => .ok acc
  | acc, e :: es =>
    match procEntry time_key acc e with
    | .error err => .error err
    | .ok acc' => foldEntries time_key acc' es

/-- Iterate the value found under the entries key and run the loop. -/
def loadEntries (entriesVal : Json) (time_key : String) : Except PyErr (Table Json) :=
  match pyIter entriesVal with
  | .error e => .error e
  | .ok entries => foldEntries time_key [] entries

/-- `load_benchmarks_from_file`: returns the loaded table together with
the diagnostics printed, or the Python exception that escaped.  The
singular entries key is preferred over the plural one, mirroring the
`bench_key` selection of the source (path interpolation in the
diagnostics is omitted). -/
def load_benchmarks_from_file (data : Json) (time_key : String) :
    Except PyErr (Table Json × List String) :=
  match data with
  | .obj fields =>
    match jget fields "benchmark" with
    | some v =>
      match loadEntries v time_key with
      | .error e => .error e
      | .ok tbl => .ok (tbl, [])
    | none =>
      match jget fields "benchmarks" with
      | some v =>
        match loadEntries v time_key with
        | .error e => .error e
        | .ok tbl => .ok (tbl, [])
      | none => .ok ([], [skipKeyMsg])
  | _ => .ok ([], [skipRootMsg])

/-! ## ResultSetAggregator: `load_benchmarks_from_dir`

The directory is modelled as the list of its files (path, parsed
content); the `is_dir` precondition of the source is assumed by the
model.  `rglob` with pattern `*_bench.json` selects exactly the files
whose path ends in that suffix, `sorted` orders them by path, and the
per-file tables are merged left to right with `dict.update`. -/

/-- A fatal condition of the directory loader: either a `SystemExit`
(no matching files / empty merged result) or an exception propagated
from a file load. -/
inductive LoadError where
  | pyError (e : PyErr)
  | noMatchingFiles
  | emptyResultSet
  deriving DecidableEq

/-- Python `str.endswith`, used to embed the `*_bench.json` glob. -/
def strEndsWith (s suffix : String) : Bool := suffix.data.isSuffixOf s.data

/-- Path order on (path, content) pairs, as used by `sorted(json_paths)`. -/
def pathLe (a b : String × Json) : Prop := strLeP a.1 b.1

instance : DecidableRel pathLe := fun a b => inferInstanceAs (Decidable (strLeP a.1 b.1))

/-- The merge loop (lines 200-202): load each file, `merged.update(...)`. -/
def loadMergeFiles (time_key : String) :
    Table Json → List (String × Json) → Except PyErr (Table Json)
  | acc, [] => .ok acc
  | acc, (_, content) :: rest =>
    match load_benchmarks_from_file content time_key with
    | .error e => .error e
    | .ok (tbl, _) => loadMergeFiles time_key (dupdate acc tbl) rest

/-- `load_benchmarks_from_dir` over the files of the directory. -/
def load_benchmarks_from_dir (files : List (String × Json)) (time_key : String) :
    Except LoadError (Table Json) :=
  let json_paths :=
    List.insertionSort pathLe (files.filter fun p => strEndsWith p.1 "_bench.json")
  if json_paths.isEmpty then .error .noMatchingFiles
  else
    match loadMergeFiles time_key [] json_paths with
    | .error e => .error (.pyError e)
    | .ok merged =>
      if merged.isEmpty then .error .emptyResultSet
      else .ok merged

/-! ## Comparator: `compare_results` -/

/-- A Python float that is either finite or the `float("inf")` sentinel
produced by the zero-denominator branches of `compare_results`. -/
inductive PyFloat where
  | fin (q : ℚ)
  | inf
  deriving DecidableEq, Inhabited

/-- One comparison row: `(name, baseline_time, current_time, speedup,
percent_change)`. -/
abbrev Row := String × ℚ × ℚ × PyFloat × PyFloat

/-- The loop body of `compare_results` for one common name.  The `getD 0`
default is unreachable: the name is drawn from the key intersection, so
both lookups succeed. -/
def compareRow (baseline current : Table String) (name : String) : Row :=
  let base_t := (dlookup baseline name).getD 0
  let cur_t := (dlookup current name).getD 0
  let speedup := if cur_t = 0 then PyFloat.inf else PyFloat.fin (base_t / cur_t)
  let percent :=
    if base_t = 0 then PyFloat.inf else PyFloat.fin ((cur_t - base_t) / base_t * 100)
  (name, base_t, cur_t, speedup, percent)

/-- The `SystemExit` message for an empty key intersection. -/
def noCommonMsg : String := "No common benchmark names found between baseline and current."

/-- `sorted(set(baseline.keys()) & set(current.keys()))`: the intersection
of key sets is embedded as the deduplicated filtered key list, which has
the same members as the Python set intersection; `sorted` on distinct
names determines the list uniquely. -/
def commonKeys (baseline current : Table String) : List String :=
  List.insertionSort strLeP
    (((dkeys baseline).filter fun n => decide (n ∈ dkeys current)).dedup)

/-- `compare_results`: rows for the sorted common names, in that order
(the insertion order of the returned dict). -/
def compare_results (baseline current : Table String) : Except String (List Row) :=
  if (commonKeys baseline current).isEmpty then .error noCommonMsg
  else .ok ((commonKeys baseline current).map (compareRow baseline current))

/-! ## TableRenderer: `print_comparison_table`

The renderer writes lines to stdout; the model returns the list of lines.
Fixed-width numeric formatting is presentation and is not modelled: a
`row` line carries the values printed in it, `rule c` stands for a line
of 80 repetitions of `c`, and `avg` carries the two aggregate numbers of
the trailing summary row. -/

/-- One printed line of the comparison table. -/
inductive OutLine where
  | blank
  | title (time_key : String)
  | rule (c : Char)
  | header
  | row (name : String) (base cur : ℚ) (speedup percent : PyFloat)
  | avg (avgSpeedup avgPercent : ℚ)
  deriving DecidableEq, Inhabited

/-- The element appended to the `speedups` list for one row:
`speedup if speedup != float("inf") else 0.0`. -/
def speedupListEntry : PyFloat → ℚ
  | .inf => 0
  | .fin q => q

/-- The lines of `print_comparison_table` printed before the summary
region: the blank line, title, top rule, header, column rule, the data
rows, and the rule below them.  These are on stdout before the summary
computation runs, so they are visible even when it raises. -/
def tableProlog (comparison : List Row) (time_key : String) : List OutLine :=
  [OutLine.blank, OutLine.title time_key, OutLine.rule '=', OutLine.header, OutLine.rule '-']
    ++ comparison.map (fun r => OutLine.row r.1 r.2.1 r.2.2.1 r.2.2.2.1 r.2.2.2.2)
    ++ [OutLine.rule '-']

/-- `print_comparison_table` as the list of lines it prints, paired with
the exception escaping it, if any.  In the `finite` filter the source
excludes `0.0` and `float("inf")`; since every element of `speedups` is
already finite (infinities were mapped to `0.0` on insertion), only the
zero test is effective.  The derived percent `(1.0 / avg_speedup - 1.0)
* -100.0` divides by `avg_speedup` in Python float arithmetic, which
raises `ZeroDivisionError` when the qualifying speedups sum to zero;
rational division in Lean is total, so that reachable error path is
embedded as an explicit branch: the lines printed so far are returned
together with the escaping exception, and neither the summary row nor
the closing rule and blank line are printed. -/
def print_comparison_table (comparison : List Row) (time_key : String) :
    List OutLine × Option PyErr :=
  let speedups := comparison.map fun r => speedupListEntry r.2.2.2.1
  let finite := speedups.filter fun s => decide (s ≠ 0)
  if speedups.isEmpty then
    (tableProlog comparison time_key ++ [OutLine.rule '=', OutLine.blank], none)
  else if finite.isEmpty then
    (tableProlog comparison time_key ++ [OutLine.rule '=', OutLine.blank], none)
  else
    let avg := finite.sum / (finite.length : ℚ)
    if avg = 0 then
      (tableProlog comparison time_key,
        some (.zeroDivisionError "float division by zero"))
    else
      (tableProlog comparison time_key
        ++ [OutLine.avg avg ((1 / avg - 1) * (-100))]
        ++ [OutLine.rule '=', OutLine.blank], none)

/-- The speedups of the rows whose speedup is finite and non-zero, the
population of the average in the spec's words. -/
def finiteNonzeroSpeedups (comparison : List Row) : List ℚ :=
  comparison.filterMap fun r =>
    match r.2.2.2.1 with
    | .fin q => if q = 0 then none else some q
    | .inf => none

/-! ## RevisionWorkspace: `run_benchmarks_for_commit`

The workspace-selection logic of `run_benchmarks_for_commit` (lines
336-356): resolve the ref to its short form, compute the worktree path
under the fixed root, and materialize only when the directory does not
already exist.  The filesystem and the command log are explicit state;
`resolve` stands for `git rev-parse --short`.  The effect of the
version-control collaborator is modelled from the spec (§6): a successful
`git worktree add` creates the target directory.  The benchmark build,
run, and result loading that follow are outside this model. -/

/-- Fixed build directory of the project. -/
def BUILD_SUBDIR : String := "build/benchmark"

/-- Fixed worktree namespace under the build directory. -/
def BENCH_WORKTREES_DIR_NAME : String := "benchmark_worktrees"

/-- Observable state: which directories exist, and which external
commands ran (oldest first). -/
structure GitState where
  existingPaths : List String
  commands : List (List String)
  deriving DecidableEq

/-- Modelled from the spec (§6 version-control collaborator):
`git worktree add --detach <path> <ref>` creates the directory at
`path`. -/
def materialize (s : GitState) (path ref : String) : GitState :=
  { existingPaths := s.existingPaths ++ [path]
    commands := s.commands ++ [["git", "worktree", "add", "--detach", path, ref]] }

/-- The deterministic worktree location for a resolved short ref:
`<repo_root>/build/benchmark/benchmark_worktrees/<short>`. -/
def worktreePath (repo_root short : String) : String :=
  repo_root ++ "/" ++ BUILD_SUBDIR ++ "/" ++ BENCH_WORKTREES_DIR_NAME ++ "/" ++ short

/-- Workspace selection of `run_benchmarks_for_commit`: returns the
worktree path used and the state after the call. -/
def run_benchmarks_for_commit (resolve : String → String) (repo_root : String)
    (s : GitState) (ref : String) : String × GitState :=
  let short := resolve ref
  let worktree_dir := worktreePath repo_root short
  if worktree_dir ∈ s.existingPaths then (worktree_dir, s)
  else (worktree_dir, materialize s worktree_dir ref)

/-! ## Helper lemmas about the comparator -/

theorem mem_commonKeys {baseline current : Table String} {n : String} :
    n ∈ commonKeys baseline current ↔ n ∈ dkeys baseline ∧ n ∈ dkeys current := by
  rw [commonKeys, (List.perm_insertionSort strLeP _).mem_iff, List.mem_dedup,
    List.mem_filter]
  simp

theorem nodup_commonKeys (baseline current : Table String) :
    (commonKeys baseline current).Nodup :=
  (List.perm_insertionSort strLeP _).nodup_iff.mpr (List.nodup_dedup _)

theorem sorted_commonKeys (baseline current : Table String) :
    (commonKeys baseline current).Sorted strLeP :=
  List.sorted_insertionSort strLeP _

theorem map_fst_compareRow (baseline current : Table String) (l : List String) :
    (l.map (compareRow baseline current)).map Prod.fst = l := by
  rw [List.map_map]
  conv_rhs => rw [← List.map_id l]
  exact List.map_congr_left fun a _ => rfl

theorem mem_dkeys_of_dlookup {d : Table String} {k : String} {v : ℚ}
    (h : dlookup d k = some v) : k ∈ dkeys d :=
  dlookup_isSome_iff.mp (by rw [h]; rfl)

theorem compare_results_ok {baseline current : Table String} {n : String}
    (hmem : n ∈ commonKeys baseline current) :
    compare_results baseline current
      = .ok ((commonKeys baseline current).map (compareRow baseline current)) := by
  rw [compare_results, if_neg]
  intro hemp
  rw [List.isEmpty_iff] at hemp
  rw [hemp] at hmem
  exact List.not_mem_nil n hmem

/-- Claim C1: for tables with at least one common name, `compare_results`
returns exactly one row per common name (membership characterisation and
row count equal to the cardinality of the key intersection) and emits the
rows sorted strictly by code-point lexicographic name order, whatever the
order of the inputs. -/
theorem C1_comparator_rows (baseline current : Table String)
    (h : ∃ n, n ∈ dkeys baseline ∧ n ∈ dkeys current) :
    ∃ rows, compare_results baseline current = .ok rows ∧
      (∀ n, n ∈ rows.map Prod.fst ↔ n ∈ dkeys baseline ∧ n ∈ dkeys current) ∧
      (rows.map Prod.fst).Sorted strLtP ∧
      rows.length = ((dkeys baseline).toFinset ∩ (dkeys current).toFinset).card := by
  obtain ⟨n, hnb, hnc⟩ := h
  have hmem : n ∈ commonKeys baseline current := mem_commonKeys.mpr ⟨hnb, hnc⟩
  refine ⟨(commonKeys baseline current).map (compareRow baseline current),
    compare_results_ok hmem, ?_, ?_, ?_⟩
  · intro m
    rw [map_fst_compareRow, mem_commonKeys]
  · rw [map_fst_compareRow]
    exact sorted_strLtP_of_sorted_strLeP (sorted_commonKeys _ _) (nodup_commonKeys _ _)
  · rw [List.length_map, commonKeys,
      (List.perm_insertionSort strLeP _).length_eq, ← List.card_toFinset,
      List.toFinset_filter]
    congr 1
    ext a
    simp [List.mem_toFinset]

/-- Witness for C1 at concrete tables with common names `a` (and only
`a`). -/
theorem C1_comparator_rows_witness :
    (∃ n, n ∈ dkeys [("b", (2 : ℚ)), ("a", 1)] ∧ n ∈ dkeys [("c", (5 : ℚ)), ("a", 3)]) ∧
    ∃ rows, compare_results [("b", (2 : ℚ)), ("a", 1)] [("c", (5 : ℚ)), ("a", 3)] = .ok rows ∧
      (∀ n, n ∈ rows.map Prod.fst ↔
        n ∈ dkeys [("b", (2 : ℚ)), ("a", 1)] ∧ n ∈ dkeys [("c", (5 : ℚ)), ("a", 3)]) ∧
      (rows.map Prod.fst).Sorted strLtP ∧
      rows.length = ((dkeys [("b", (2 : ℚ)), ("a", 1)]).toFinset
        ∩ (dkeys [("c", (5 : ℚ)), ("a", 3)]).toFinset).card :=
  ⟨⟨"a", by decide, by decide⟩,
    C1_comparator_rows _ _ ⟨"a", by decide, by decide⟩⟩

/-- Claim C2: every common name yields a row holding exactly the claimed
speedup and percent-change, with `inf` sentinels for zero denominators;
the comparison succeeds (no exception) whenever a common name exists. -/
theorem C2_ratio_sentinels (baseline current : Table String) (n : String) (b c : ℚ)
    (hb : dlookup baseline n = some b) (hc : dlookup current n = some c) :
    ∃ rows, compare_results baseline current = .ok rows ∧
      (n, b, c,
        (if c = 0 then PyFloat.inf else PyFloat.fin (b / c)),
        (if b = 0 then PyFloat.inf else PyFloat.fin ((c - b) / b * 100))) ∈ rows := by
  have hmem : n ∈ commonKeys baseline current :=
    mem_commonKeys.mpr ⟨mem_dkeys_of_dlookup hb, mem_dkeys_of_dlookup hc⟩
  refine ⟨(commonKeys baseline current).map (compareRow baseline current),
    compare_results_ok hmem, ?_⟩
  have : compareRow baseline current n
      = (n, b, c,
          (if c = 0 then PyFloat.inf else PyFloat.fin (b / c)),
          (if b = 0 then PyFloat.inf else PyFloat.fin ((c - b) / b * 100))) := by
    simp [compareRow, hb, hc]
  exact this ▸ List.mem_map_of_mem (compareRow baseline current) hmem

/-- Witness for C2 at the spec's ratio-sentinel example: baseline 10,
current 0, hence an infinite speedup and no exception. -/
theorem C2_ratio_sentinels_witness :
    dlookup [("x", (10 : ℚ))] "x" = some 10 ∧ dlookup [("x", (0 : ℚ))] "x" = some 0 ∧
    ∃ rows, compare_results [("x", (10 : ℚ))] [("x", (0 : ℚ))] = .ok rows ∧
      ("x", (10 : ℚ), (0 : ℚ),
        (if (0 : ℚ) = 0 then PyFloat.inf else PyFloat.fin (10 / 0)),
        (if (10 : ℚ) = 0 then PyFloat.inf else PyFloat.fin ((0 - 10) / 10 * 100))) ∈ rows :=
  ⟨by decide, by decide,
    C2_ratio_sentinels [("x", 10)] [("x", 0)] "x" 10 0 (by decide) (by decide)⟩

/-- Claim C4: with no common name, `compare_results` stops with the
`SystemExit` message and produces no rows. -/
theorem C4_no_common_benchmarks (baseline current : Table String)
    (h : ∀ n, n ∈ dkeys baseline → n ∉ dkeys current) :
    compare_results baseline current = .error noCommonMsg := by
  have hnil : commonKeys baseline current = [] := by
    refine List.eq_nil_iff_forall_not_mem.mpr fun n hn => ?_
    obtain ⟨hb, hc⟩ := mem_commonKeys.mp hn
    exact h n hb hc
  rw [compare_results, hnil]
  rfl

/-- Witness for C4 at two disjoint singleton tables. -/
theorem C4_no_common_benchmarks_witness :
    compare_results [("x", (1 : ℚ))] [("y", (2 : ℚ))] = .error noCommonMsg :=
  C4_no_common_benchmarks _ _ (by
    intro n hn
    simp [dkeys] at hn ⊢
    subst hn
    decide)

/-! ## Helper lemmas about the loader -/

/-- Entries that are dicts but have an absent name, a falsy name, or no
time field are skipped: the loop continues with the table unchanged. -/
theorem procEntry_skip (tk : String) (acc : Table Json) (fs : List (String × Json))
    (h : jget fs "name" = none
      ∨ (∃ nm, jget fs "name" = some nm ∧ truthy nm = false)
      ∨ jget fs tk = none) :
    procEntry tk acc (.obj fs) = .ok acc := by
  rcases h with h | ⟨nm, hnm, htr⟩ | h
  · simp [procEntry, h]
  · simp [procEntry, hnm, htr]
  · cases hn : jget fs "name" with
    | none => simp [procEntry, hn]
    | some nm =>
      cases htr : truthy nm with
      | false => simp [procEntry, hn, htr]
      | true => simp [procEntry, hn, htr, h]

theorem foldEntries_append (tk : String) (acc : Table Json) (l₁ l₂ : List Json) :
    foldEntries tk acc (l₁ ++ l₂)
      = match foldEntries tk acc l₁ with
        | .error e => .error e
        | .ok acc' => foldEntries tk acc' l₂ := by
  induction l₁ generalizing acc with
  | nil => simp [foldEntries]
  | cons e es ih =>
    rw [List.cons_append]
    cases hp : procEntry tk acc e with
    | error err => simp [foldEntries, hp]
    | ok acc' => simp [foldEntries, hp, ih]

theorem load_single_benchmarks (v : Json) (tk : String) :
    load_benchmarks_from_file (Json.obj [("benchmarks", v)]) tk
      = match loadEntries v tk with
        | .error e => .error e
        | .ok tbl => .ok (tbl, []) := by
  have h1 : jget [("benchmarks", v)] "benchmark" = none := by
    simp +decide [jget]
  have h2 : jget [("benchmarks", v)] "benchmarks" = some v := by
    simp [jget]
  simp [load_benchmarks_from_file, h1, h2]

/-- Counterexample to claim C5: the claim promises that malformed individual
entries never let an error escape the loader, but an entry that is not a
mapping reaches `entry.get` and raises `AttributeError`, exactly as the
Python `42 .get("name")` would. -/
theorem C5_counterexample_nonmapping_entry :
    load_benchmarks_from_file (Json.obj [("benchmarks", Json.arr [Json.num 42])]) "real_time"
      = .error (PyErr.attributeError "entry object has no attribute get") := rfl

/-- Claim C5 as amended: the loader is non-raising for the structural cases the
source guards: a non-mapping root and a missing entries key give an empty
table plus one diagnostic, and an entry that is a mapping but lacks a
truthy name or the requested time field is skipped; only an entry of
unexpected shape (for example a non-mapping entry) raises. -/
theorem C5_loader_tolerance :
    (∀ (d : Json) (tk : String), (∀ fs, d ≠ Json.obj fs) →
      load_benchmarks_from_file d tk = .ok ([], [skipRootMsg]))
    ∧ (∀ (fields : List (String × Json)) (tk : String),
        jget fields "benchmark" = none → jget fields "benchmarks" = none →
        load_benchmarks_from_file (Json.obj fields) tk = .ok ([], [skipKeyMsg]))
    ∧ (∀ (tk : String) (acc : Table Json) (fs : List (String × Json)),
        (jget fs "name" = none
          ∨ (∃ nm, jget fs "name" = some nm ∧ truthy nm = false)
          ∨ jget fs tk = none) →
        procEntry tk acc (.obj fs) = .ok acc) := by
  refine ⟨fun d tk hno => ?_, fun fields tk h1 h2 => ?_, procEntry_skip⟩
  · cases d with
    | obj fs => exact absurd rfl (hno fs)
    | null => rfl
    | bool b => rfl
    | num q => rfl
    | str s => rfl
    | arr xs => rfl
  · simp [load_benchmarks_from_file, h1, h2]

/-- Witness for the amended C5: a list root, a mapping without either
entries key, and a skipped entry whose name is present but empty. -/
theorem C5_loader_tolerance_witness :
    load_benchmarks_from_file (Json.arr []) "real_time" = .ok ([], [skipRootMsg])
    ∧ load_benchmarks_from_file (Json.obj [("context", Json.null)]) "real_time"
        = .ok ([], [skipKeyMsg])
    ∧ procEntry "real_time" []
        (Json.obj [("name", Json.str ""), ("real_time", Json.num 7)]) = .ok [] :=
  ⟨C5_loader_tolerance.1 (Json.arr []) "real_time" (fun fs h => by cases h),
    C5_loader_tolerance.2.1 [("context", Json.null)] "real_time" (by decide) (by decide),
    C5_loader_tolerance.2.2 "real_time" [] [("name", Json.str ""), ("real_time", Json.num 7)]
      (Or.inr (Or.inl ⟨Json.str "", by decide, by decide⟩))⟩

/-- Claim C9: an entry whose name field is the empty string is skipped even if
the time field is present (removing it from the entries list does not
change the result of the loader at all), and a table entry can only come
from an entry that is a mapping with a truthy name and the requested
time field. -/
theorem C9_empty_name_skipped :
    (∀ (tk : String) (l1 l2 : List Json) (fs : List (String × Json)),
      jget fs "name" = some (Json.str "") →
      load_benchmarks_from_file
          (Json.obj [("benchmarks", Json.arr (l1 ++ Json.obj fs :: l2))]) tk
        = load_benchmarks_from_file (Json.obj [("benchmarks", Json.arr (l1 ++ l2))]) tk)
    ∧ (∀ (tk : String) (acc : Table Json) (e : Json) (t : Table Json),
        procEntry tk acc e = .ok t → t ≠ acc →
        ∃ fs, e = Json.obj fs
          ∧ (∃ nm, jget fs "name" = some nm ∧ truthy nm = true)
          ∧ (jget fs tk).isSome = true) := by
  constructor
  · intro tk l1 l2 fs hname
    rw [load_single_benchmarks, load_single_benchmarks]
    have hle : ∀ X : List Json, loadEntries (Json.arr X) tk = foldEntries tk [] X :=
      fun X => rfl
    rw [hle, hle, foldEntries_append, foldEntries_append]
    cases hf : foldEntries tk [] l1 with
    | error e => rfl
    | ok acc =>
      have hskip : procEntry tk acc (Json.obj fs) = .ok acc :=
        procEntry_skip tk acc fs (Or.inr (Or.inl ⟨Json.str "", hname, by decide⟩))
      simp [foldEntries, hskip]
  · intro tk acc e t hok hne
    cases e with
    | obj fs =>
      refine ⟨fs, rfl, ?_⟩
      cases hn : jget fs "name" with
      | none =>
        simp [procEntry, hn] at hok
        exact absurd hok.symm hne
      | some nm =>
        cases htr : truthy nm with
        | false =>
          simp [procEntry, hn, htr] at hok
          exact absurd hok.symm hne
        | true =>
          cases htime : jget fs tk with
          | none =>
            simp [procEntry, hn, htr, htime] at hok
            exact absurd hok.symm hne
          | some tv => exact ⟨⟨nm, rfl, htr⟩, rfl⟩
    | null => simp [procEntry] at hok
    | bool b => simp [procEntry] at hok
    | num q => simp [procEntry] at hok
    | str s => simp [procEntry] at hok
    | arr xs => simp [procEntry] at hok

/-- Witness for C9: an empty-name entry with a present `real_time` field
is dropped from a concrete document. -/
theorem C9_empty_name_skipped_witness :
    jget [("name", Json.str ""), ("real_time", Json.num 7)] "name" = some (Json.str "")
    ∧ load_benchmarks_from_file
        (Json.obj [("benchmarks", Json.arr
          [Json.obj [("name", Json.str ""), ("real_time", Json.num 7)],
           Json.obj [("name", Json.str "bm"), ("real_time", Json.num 5)]])]) "real_time"
      = load_benchmarks_from_file
        (Json.obj [("benchmarks", Json.arr
          [Json.obj [("name", Json.str "bm"), ("real_time", Json.num 5)]])]) "real_time" :=
  ⟨by decide,
    C9_empty_name_skipped.1 "real_time" []
      [Json.obj [("name", Json.str "bm"), ("real_time", Json.num 5)]]
      [("name", Json.str ""), ("real_time", Json.num 7)] (by decide)⟩

/-- Claim C10: when the singular entries key is present the loader reads the
entry list exclusively from it: the result coincides with loading a
document holding only the singular key, whatever the plural key maps
to. -/
theorem C10_singular_key_preferred (fields : List (String × Json)) (tk : String) (v : Json)
    (h : jget fields "benchmark" = some v) :
    load_benchmarks_from_file (Json.obj fields) tk
      = load_benchmarks_from_file (Json.obj [("benchmark", v)]) tk := by
  have h2 : jget [("benchmark", v)] "benchmark" = some v := by simp [jget]
  simp [load_benchmarks_from_file, h, h2]

/-- Witness for C10: with both keys present, the entries under the plural
key are ignored (here the singular key holds no entries, so the table is
empty although the plural key holds a loadable entry). -/
theorem C10_singular_key_preferred_witness :
    jget [("benchmark", Json.arr []),
      ("benchmarks", Json.arr [Json.obj [("name", Json.str "x"), ("real_time", Json.num 1)]])]
      "benchmark" = some (Json.arr [])
    ∧ load_benchmarks_from_file
        (Json.obj [("benchmark", Json.arr []),
          ("benchmarks", Json.arr
            [Json.obj [("name", Json.str "x"), ("real_time", Json.num 1)]])]) "real_time"
      = load_benchmarks_from_file (Json.obj [("benchmark", Json.arr [])]) "real_time" :=
  ⟨by decide,
    C10_singular_key_preferred _ "real_time" (Json.arr []) (by decide)⟩

/-! ## Helper lemmas about the directory loader -/

theorem dupdate_nil (d : Table κ) : dupdate d [] = d := rfl

theorem loadMergeFiles_all_empty (tk : String) (l : List (String × Json)) :
    ∀ acc, (∀ p ∈ l, ∃ ds, load_benchmarks_from_file p.2 tk = .ok ([], ds)) →
      loadMergeFiles tk acc l = .ok acc := by
  induction l with
  | nil => intro acc _; rfl
  | cons p rest ih =>
    intro acc h
    obtain ⟨pa, co⟩ := p
    obtain ⟨ds, hload⟩ := h (pa, co) (List.mem_cons_self _ _)
    have hrest := fun q hq => h q (List.mem_cons_of_mem _ hq)
    simp only [loadMergeFiles, hload, dupdate_nil]
    exact ih acc hrest

/-- Every table produced by `procEntry` keeps its keys unique. -/
theorem procEntry_nodup {tk : String} {acc : Table Json} {e : Json} {acc' : Table Json}
    (h : procEntry tk acc e = .ok acc') (hn : (dkeys acc).Nodup) :
    (dkeys acc').Nodup := by
  cases e with
  | obj fs =>
    cases hname : jget fs "name" with
    | none =>
      simp [procEntry, hname] at h
      exact h ▸ hn
    | some nm =>
      cases htr : truthy nm with
      | false =>
        simp [procEntry, hname, htr] at h
        exact h ▸ hn
      | true =>
        cases htime : jget fs tk with
        | none =>
          simp [procEntry, hname, htr, htime] at h
          exact h ▸ hn
        | some tv =>
          cases hconv : floatConv tv with
          | error e => simp [procEntry, hname, htr, htime, hconv] at h
          | ok q =>
            cases hh : hashable nm with
            | false => simp [procEntry, hname, htr, htime, hconv, hh] at h
            | true =>
              simp [procEntry, hname, htr, htime, hconv, hh] at h
              exact h ▸ nodup_dkeys_dinsert nm q hn
  | null => simp [procEntry] at h
  | bool b => simp [procEntry] at h
  | num q => simp [procEntry] at h
  | str s => simp [procEntry] at h
  | arr xs => simp [procEntry] at h

theorem foldEntries_nodup {tk : String} {es : List Json} :
    ∀ {acc t : Table Json}, foldEntries tk acc es = .ok t → (dkeys acc).Nodup →
      (dkeys t).Nodup := by
  induction es with
  | nil =>
    intro acc t h hn
    simp [foldEntries] at h
    exact h ▸ hn
  | cons e es ih =>
    intro acc t h hn
    cases hp : procEntry tk acc e with
    | error err => simp [foldEntries, hp] at h
    | ok acc' =>
      simp only [foldEntries, hp] at h
      exact ih h (procEntry_nodup hp hn)

theorem loadEntries_nodup {v : Json} {tk : String} {t : Table Json}
    (h : loadEntries v tk = .ok t) : (dkeys t).Nodup := by
  rw [loadEntries] at h
  cases hit : pyIter v with
  | error e => rw [hit] at h; simp at h
  | ok entries =>
    rw [hit] at h
    exact foldEntries_nodup h (by simp [dkeys])

/-- Every table returned by the file loader has unique keys: it is a
genuine dict. -/
theorem load_file_nodup {data : Json} {tk : String} {t : Table Json} {ds : List String}
    (h : load_benchmarks_from_file data tk = .ok (t, ds)) : (dkeys t).Nodup := by
  cases data with
  | obj fields =>
    cases hk : jget fields "benchmark" with
    | some v =>
      simp only [load_benchmarks_from_file, hk] at h
      cases hle : loadEntries v tk with
      | error e => rw [hle] at h; simp at h
      | ok tbl =>
        rw [hle] at h
        simp at h
        exact h.1 ▸ loadEntries_nodup hle
    | none =>
      cases hk2 : jget fields "benchmarks" with
      | some v =>
        simp only [load_benchmarks_from_file, hk, hk2] at h
        cases hle : loadEntries v tk with
        | error e => rw [hle] at h; simp at h
        | ok tbl =>
          rw [hle] at h
          simp at h
          exact h.1 ▸ loadEntries_nodup hle
      | none =>
        simp [load_benchmarks_from_file, hk, hk2] at h
        exact h.1 ▸ List.nodup_nil
  | null => simp [load_benchmarks_from_file] at h; exact h.1 ▸ List.nodup_nil
  | bool b => simp [load_benchmarks_from_file] at h; exact h.1 ▸ List.nodup_nil
  | num q => simp [load_benchmarks_from_file] at h; exact h.1 ▸ List.nodup_nil
  | str s => simp [load_benchmarks_from_file] at h; exact h.1 ▸ List.nodup_nil
  | arr xs => simp [load_benchmarks_from_file] at h; exact h.1 ▸ List.nodup_nil

/-- Claim C7: the two fatal aggregation conditions are produced exactly as
claimed and are distinct: no candidate file at all gives
`noMatchingFiles`, while candidates that all load to empty tables give
`emptyResultSet`. -/
theorem C7_aggregation_failures (files : List (String × Json)) (tk : String) :
    ((∀ p ∈ files, strEndsWith p.1 "_bench.json" = false) →
      load_benchmarks_from_dir files tk = .error .noMatchingFiles)
    ∧ ((∃ p ∈ files, strEndsWith p.1 "_bench.json" = true) →
      (∀ p ∈ files, strEndsWith p.1 "_bench.json" = true →
        ∃ ds, load_benchmarks_from_file p.2 tk = .ok ([], ds)) →
      load_benchmarks_from_dir files tk = .error .emptyResultSet)
    ∧ LoadError.noMatchingFiles ≠ LoadError.emptyResultSet := by
  refine ⟨fun hnone => ?_, fun hex hall => ?_, by decide⟩
  · have hf : files.filter (fun p => strEndsWith p.1 "_bench.json") = [] := by
      rw [List.filter_eq_nil_iff]
      intro p hp
      simp [hnone p hp]
    simp [load_benchmarks_from_dir, hf]
  · obtain ⟨p, hp, he⟩ := hex
    have hpmem : p ∈ List.insertionSort pathLe
        (files.filter fun p => strEndsWith p.1 "_bench.json") :=
      (List.perm_insertionSort pathLe _).mem_iff.mpr (List.mem_filter.mpr ⟨hp, he⟩)
    have hnonempty : (List.insertionSort pathLe
        (files.filter fun p => strEndsWith p.1 "_bench.json")).isEmpty = false := by
      rcases hl : List.insertionSort pathLe
          (files.filter fun p => strEndsWith p.1 "_bench.json") with _ | ⟨a, l⟩
      · rw [hl] at hpmem
        exact absurd hpmem (List.not_mem_nil p)
      · rfl
    have hmerge : loadMergeFiles tk [] (List.insertionSort pathLe
        (files.filter fun p => strEndsWith p.1 "_bench.json")) = .ok [] := by
      refine loadMergeFiles_all_empty tk _ [] fun q hq => ?_
      have hq' : q ∈ files.filter fun p => strEndsWith p.1 "_bench.json" :=
        (List.perm_insertionSort pathLe _).mem_iff.mp hq
      obtain ⟨hqf, hqe⟩ := List.mem_filter.mp hq'
      exact hall q hqf hqe
    simp [load_benchmarks_from_dir, hnonempty, hmerge]

/-- Witness for C7: a directory with one non-matching file hits
`noMatchingFiles`; a directory with one matching but empty file hits
`emptyResultSet`. -/
theorem C7_aggregation_failures_witness :
    load_benchmarks_from_dir [("a.json", Json.null)] "real_time"
        = .error .noMatchingFiles
    ∧ load_benchmarks_from_dir [("a_bench.json", Json.arr [])] "real_time"
        = .error .emptyResultSet :=
  ⟨(C7_aggregation_failures [("a.json", Json.null)] "real_time").1 (by decide),
    (C7_aggregation_failures [("a_bench.json", Json.arr [])] "real_time").2.1
      ⟨("a_bench.json", Json.arr []), by decide, by decide⟩
      (fun p hp _ => ⟨[skipRootMsg], by
        rw [List.mem_singleton] at hp
        rw [hp]
        rfl⟩)⟩

/-- Folding `dict.update` over a list of dicts: a lookup in the result is
served by the last table in the list that knows the key, with the
accumulator as final fallback. -/
theorem dlookup_mergeAll (ts : List (Table κ)) (acc : Table κ) (k : κ)
    (h : ∀ t ∈ ts, (dkeys t).Nodup) :
    dlookup (ts.foldl dupdate acc) k
      = (ts.reverse.findSome? fun t => dlookup t k).or (dlookup acc k) := by
  induction ts generalizing acc with
  | nil => simp
  | cons t ts ih =>
    rw [List.foldl_cons, ih _ (fun u hu => h u (List.mem_cons_of_mem _ hu)),
      dlookup_dupdate _ _ (h t (List.mem_cons_self _ _)), List.reverse_cons,
      List.findSome?_append, Option.or_assoc]
    congr 1
    cases hf : dlookup t k <;> simp [List.findSome?, hf]

/-- Claim C3: for two candidate files whose tables both define a name,
whichever order the directory listing supplies them in, the aggregation
sorts them by path and the merged value is the one from the
lexicographically later file; in general a lookup in a `dict.update`
fold is served by the last source that defined the key. -/
theorem C3_last_write_wins (p1 p2 : String) (c1 c2 : Json) (tk : String)
    (t1 t2 : Table Json) (d1 d2 : List String) (n : Json) (v : ℚ)
    (hp : strLt p1 p2 = true)
    (he1 : strEndsWith p1 "_bench.json" = true)
    (he2 : strEndsWith p2 "_bench.json" = true)
    (h1 : load_benchmarks_from_file c1 tk = .ok (t1, d1))
    (h2 : load_benchmarks_from_file c2 tk = .ok (t2, d2))
    (hn : dlookup t2 n = some v) :
    (∃ merged, load_benchmarks_from_dir [(p1, c1), (p2, c2)] tk = .ok merged
      ∧ load_benchmarks_from_dir [(p2, c2), (p1, c1)] tk = .ok merged
      ∧ dlookup merged n = some v)
    ∧ ∀ (ts : List (Table Json)) (acc : Table Json),
        (∀ t ∈ ts, (dkeys t).Nodup) →
        dlookup (ts.foldl dupdate acc) n
          = (ts.reverse.findSome? fun t => dlookup t n).or (dlookup acc n) := by
  constructor
  · have hfilter : ([(p1, c1), (p2, c2)] : List (String × Json)).filter
        (fun p => strEndsWith p.1 "_bench.json") = [(p1, c1), (p2, c2)] := by
      simp [List.filter, he1, he2]
    have hfilter2 : ([(p2, c2), (p1, c1)] : List (String × Json)).filter
        (fun p => strEndsWith p.1 "_bench.json") = [(p2, c2), (p1, c1)] := by
      simp [List.filter, he1, he2]
    have hle : pathLe (p1, c1) (p2, c2) := strLe_of_strLt hp
    have hnle : ¬pathLe (p2, c2) (p1, c1) := by
      simp only [pathLe, strLeP, strLe, hp]
      decide
    have hsorted : List.insertionSort pathLe [(p1, c1), (p2, c2)]
        = [(p1, c1), (p2, c2)] := by
      simp [List.insertionSort, List.orderedInsert, hle]
    have hsorted2 : List.insertionSort pathLe [(p2, c2), (p1, c1)]
        = [(p1, c1), (p2, c2)] := by
      simp [List.insertionSort, List.orderedInsert, hle, hnle]
    have hnodup2 : (dkeys t2).Nodup := load_file_nodup h2
    have hmerge : loadMergeFiles tk [] [(p1, c1), (p2, c2)]
        = .ok (dupdate (dupdate [] t1) t2) := by
      simp [loadMergeFiles, h1, h2]
    have hlook : dlookup (dupdate (dupdate [] t1) t2) n = some v := by
      rw [dlookup_dupdate _ _ hnodup2, hn]
      rfl
    have hne : dupdate (dupdate [] t1) t2 ≠ [] := ne_nil_of_dlookup_isSome hlook
    have hemp : (dupdate (dupdate [] t1) t2).isEmpty = false := by
      rcases hl : dupdate (dupdate [] t1) t2 with _ | ⟨a, l⟩
      · exact absurd hl hne
      · rfl
    refine ⟨dupdate (dupdate [] t1) t2, ?_, ?_, hlook⟩
    · simp [load_benchmarks_from_dir, hfilter, hsorted, hmerge, hemp]
    · simp [load_benchmarks_from_dir, hfilter2, hsorted2, hmerge, hemp]
  · intro ts acc hts
    exact dlookup_mergeAll ts acc n hts

/-- Witness for C3: two files both defining `x`; the merged value is the
one from the lexicographically later path. -/
theorem C3_last_write_wins_witness :
    ∃ merged, load_benchmarks_from_dir
        [("a_bench.json",
          Json.obj [("benchmarks", Json.arr
            [Json.obj [("name", Json.str "x"), ("real_time", Json.num 1)]])]),
         ("b_bench.json",
          Json.obj [("benchmarks", Json.arr
            [Json.obj [("name", Json.str "x"), ("real_time", Json.num 2)]])])]
        "real_time" = .ok merged
      ∧ load_benchmarks_from_dir
        [("b_bench.json",
          Json.obj [("benchmarks", Json.arr
            [Json.obj [("name", Json.str "x"), ("real_time", Json.num 2)]])]),
         ("a_bench.json",
          Json.obj [("benchmarks", Json.arr
            [Json.obj [("name", Json.str "x"), ("real_time", Json.num 1)]])])]
        "real_time" = .ok merged
      ∧ dlookup merged (Json.str "x") = some 2 :=
  (C3_last_write_wins "a_bench.json" "b_bench.json"
    (Json.obj [("benchmarks", Json.arr
      [Json.obj [("name", Json.str "x"), ("real_time", Json.num 1)]])])
    (Json.obj [("benchmarks", Json.arr
      [Json.obj [("name", Json.str "x"), ("real_time", Json.num 2)]])])
    "real_time"
    [(Json.str "x", 1)] [(Json.str "x", 2)] [] [] (Json.str "x") 2
    (by decide) (by decide) (by decide) rfl rfl (by decide)).1

/-! ## Helper lemmas about the renderer -/

/-- The `finite` list computed by `print_comparison_table` is exactly the
list of finite non-zero speedups of the rows. -/
theorem finite_filter_eq (comparison : List Row) :
    ((comparison.map fun r => speedupListEntry r.2.2.2.1).filter fun s => decide (s ≠ 0))
      = finiteNonzeroSpeedups comparison := by
  induction comparison with
  | nil => rfl
  | cons r rest ih =>
    obtain ⟨nm, b, c, sp, pc⟩ := r
    cases sp with
    | inf =>
      simpa [speedupListEntry, finiteNonzeroSpeedups, List.filterMap_cons] using ih
    | fin q =>
      by_cases hq : q = 0
      · subst hq
        simpa [speedupListEntry, finiteNonzeroSpeedups, List.filterMap_cons] using ih
      · simpa [speedupListEntry, finiteNonzeroSpeedups, List.filterMap_cons, hq] using ih

/-- Every line of the prolog is a blank, title, rule, header or data
row, never a summary line. -/
theorem avg_not_mem_tableProlog (comparison : List Row) (tk : String) (a p : ℚ) :
    OutLine.avg a p ∉ tableProlog comparison tk := by
  intro hmem
  simp [tableProlog] at hmem

/-- Trichotomy of `print_comparison_table`: no qualifying speedup (full
report, no summary row), qualifying speedups summing to zero
(`ZeroDivisionError` escapes after the prolog), or qualifying speedups
with non-zero sum (full report with the summary row). -/
theorem print_table_spec (comparison : List Row) (tk : String) :
    (finiteNonzeroSpeedups comparison = [] ∧
      print_comparison_table comparison tk
        = (tableProlog comparison tk ++ [OutLine.rule '=', OutLine.blank], none))
    ∨ (finiteNonzeroSpeedups comparison ≠ [] ∧
        (finiteNonzeroSpeedups comparison).sum = 0 ∧
        print_comparison_table comparison tk
          = (tableProlog comparison tk,
              some (PyErr.zeroDivisionError "float division by zero")))
    ∨ (finiteNonzeroSpeedups comparison ≠ [] ∧
        (finiteNonzeroSpeedups comparison).sum ≠ 0 ∧
        print_comparison_table comparison tk
          = (tableProlog comparison tk
              ++ [OutLine.avg
                    ((finiteNonzeroSpeedups comparison).sum
                      / ((finiteNonzeroSpeedups comparison).length : ℚ))
                    ((1 / ((finiteNonzeroSpeedups comparison).sum
                      / ((finiteNonzeroSpeedups comparison).length : ℚ)) - 1) * (-100))]
              ++ [OutLine.rule '=', OutLine.blank], none)) := by
  have hfin := finite_filter_eq comparison
  by_cases hq : finiteNonzeroSpeedups comparison = []
  · left
    refine ⟨hq, ?_⟩
    cases hse : (comparison.map fun r => speedupListEntry r.2.2.2.1).isEmpty with
    | true => simp only [print_comparison_table, hse, if_true]
    | false =>
      have hfe : ((comparison.map fun r => speedupListEntry r.2.2.2.1).filter
          fun s => decide (s ≠ 0)).isEmpty = true := by
        rw [hfin, hq]
        rfl
      simp only [print_comparison_table, hse, hfe, if_true, Bool.false_eq_true, if_false]
  · have hse : (comparison.map fun r => speedupListEntry r.2.2.2.1).isEmpty = false := by
      rcases hc : comparison with _ | ⟨r, rest⟩
      · rw [hc] at hq
        exact absurd rfl hq
      · rfl
    have hfe : ((comparison.map fun r => speedupListEntry r.2.2.2.1).filter
        fun s => decide (s ≠ 0)).isEmpty = false := by
      rw [hfin]
      rcases hl : finiteNonzeroSpeedups comparison with _ | ⟨a, l⟩
      · exact absurd hl hq
      · rfl
    have hqe : (finiteNonzeroSpeedups comparison).isEmpty = false := by
      rcases hl : finiteNonzeroSpeedups comparison with _ | ⟨a, l⟩
      · exact absurd hl hq
      · rfl
    have hqlen : ((finiteNonzeroSpeedups comparison).length : ℚ) ≠ 0 := by
      rcases hl : finiteNonzeroSpeedups comparison with _ | ⟨a, l⟩
      · exact absurd hl hq
      · rw [List.length_cons]
        exact Nat.cast_ne_zero.mpr (Nat.succ_ne_zero _)
    have h1 : ¬((comparison.map fun r => speedupListEntry r.2.2.2.1).isEmpty = true) := by
      simp [hse]
    have h2 : ¬((finiteNonzeroSpeedups comparison).isEmpty = true) := by
      simp [hqe]
    right
    by_cases hs0 : (finiteNonzeroSpeedups comparison).sum = 0
    · left
      refine ⟨hq, hs0, ?_⟩
      have havgq0 : (finiteNonzeroSpeedups comparison).sum
          / ((finiteNonzeroSpeedups comparison).length : ℚ) = 0 := by
        rw [hs0, zero_div]
      simp only [print_comparison_table]
      rw [hfin, if_neg h1, if_neg h2, if_pos havgq0]
    · right
      refine ⟨hq, hs0, ?_⟩
      have havgq : (finiteNonzeroSpeedups comparison).sum
          / ((finiteNonzeroSpeedups comparison).length : ℚ) ≠ 0 := by
        intro h0
        rcases div_eq_zero_iff.mp h0 with h | h
        · exact hs0 h
        · exact hqlen h
      simp only [print_comparison_table]
      rw [hfin, if_neg h1, if_neg h2, if_neg havgq]

/-- Claim C6: any printed average-speedup summary line is the mean over
exactly the rows whose speedup is finite and non-zero; when no row
qualifies, the summary row is omitted entirely (and nothing is raised);
when rows qualify with a non-zero sum the summary row is printed with
that mean; and when the qualifying speedups sum to zero the renderer
raises `ZeroDivisionError` after the data rows, printing no summary
row. -/
theorem C6_average_over_finite (comparison : List Row) (tk : String) :
    (∀ a p, OutLine.avg a p ∈ (print_comparison_table comparison tk).1 →
      finiteNonzeroSpeedups comparison ≠ []
      ∧ a = (finiteNonzeroSpeedups comparison).sum
          / ((finiteNonzeroSpeedups comparison).length : ℚ)
      ∧ p = (1 / a - 1) * (-100))
    ∧ (finiteNonzeroSpeedups comparison = [] →
      (∀ a p, OutLine.avg a p ∉ (print_comparison_table comparison tk).1)
      ∧ (print_comparison_table comparison tk).2 = none)
    ∧ (finiteNonzeroSpeedups comparison ≠ [] →
      (finiteNonzeroSpeedups comparison).sum ≠ 0 →
      OutLine.avg
        ((finiteNonzeroSpeedups comparison).sum
          / ((finiteNonzeroSpeedups comparison).length : ℚ))
        ((1 / ((finiteNonzeroSpeedups comparison).sum
          / ((finiteNonzeroSpeedups comparison).length : ℚ)) - 1) * (-100))
        ∈ (print_comparison_table comparison tk).1
      ∧ (print_comparison_table comparison tk).2 = none)
    ∧ (finiteNonzeroSpeedups comparison ≠ [] →
      (finiteNonzeroSpeedups comparison).sum = 0 →
      (print_comparison_table comparison tk).2
          = some (PyErr.zeroDivisionError "float division by zero")
      ∧ ∀ a p, OutLine.avg a p ∉ (print_comparison_table comparison tk).1) := by
  rcases print_table_spec comparison tk with ⟨hq, heq⟩ | ⟨hq, hs0, heq⟩ | ⟨hq, hs0, heq⟩
  · refine ⟨?_, fun _ => ⟨?_, ?_⟩, fun hne _ => absurd hq hne, fun hne _ => absurd hq hne⟩
    · intro a p hmem
      rw [heq] at hmem
      rcases List.mem_append.mp hmem with h | h
      · exact absurd h (avg_not_mem_tableProlog comparison tk a p)
      · simp at h
    · intro a p hmem
      rw [heq] at hmem
      rcases List.mem_append.mp hmem with h | h
      · exact absurd h (avg_not_mem_tableProlog comparison tk a p)
      · simp at h
    · rw [heq]
  · refine ⟨?_, fun h0 => absurd h0 hq, fun _ hsne => absurd hs0 hsne, fun _ _ => ⟨?_, ?_⟩⟩
    · intro a p hmem
      rw [heq] at hmem
      exact absurd hmem (avg_not_mem_tableProlog comparison tk a p)
    · rw [heq]
    · intro a p hmem
      rw [heq] at hmem
      exact absurd hmem (avg_not_mem_tableProlog comparison tk a p)
  · refine ⟨?_, fun h0 => absurd h0 hq, fun _ _ => ⟨?_, ?_⟩, fun _ hs => absurd hs hs0⟩
    · intro a p hmem
      rw [heq] at hmem
      rcases List.mem_append.mp hmem with h | h
      · rcases List.mem_append.mp h with h1 | h1
        · exact absurd h1 (avg_not_mem_tableProlog comparison tk a p)
        · rw [List.mem_singleton] at h1
          injection h1 with ha hp
          refine ⟨hq, ha, ?_⟩
          rw [ha]
          exact hp
      · simp at h
    · rw [heq]
      simp
    · rw [heq]

/-- Witness for C6: the row with speedup 2 qualifies while an
infinite-speedup row is excluded, so the summary row holds the mean;
rows with speedups 1 and -1 qualify but sum to zero, so the renderer
raises and prints no summary row. -/
theorem C6_average_over_finite_witness :
    (finiteNonzeroSpeedups
        [("a", (100 : ℚ), 50, PyFloat.fin 2, PyFloat.fin (-50)),
         ("z", (1 : ℚ), 0, PyFloat.inf, PyFloat.fin 0)] ≠ []
    ∧ OutLine.avg
        ((finiteNonzeroSpeedups
          [("a", (100 : ℚ), 50, PyFloat.fin 2, PyFloat.fin (-50)),
           ("z", (1 : ℚ), 0, PyFloat.inf, PyFloat.fin 0)]).sum
          / ((finiteNonzeroSpeedups
            [("a", (100 : ℚ), 50, PyFloat.fin 2, PyFloat.fin (-50)),
             ("z", (1 : ℚ), 0, PyFloat.inf, PyFloat.fin 0)]).length : ℚ))
        ((1 / ((finiteNonzeroSpeedups
          [("a", (100 : ℚ), 50, PyFloat.fin 2, PyFloat.fin (-50)),
           ("z", (1 : ℚ), 0, PyFloat.inf, PyFloat.fin 0)]).sum
          / ((finiteNonzeroSpeedups
            [("a", (100 : ℚ), 50, PyFloat.fin 2, PyFloat.fin (-50)),
             ("z", (1 : ℚ), 0, PyFloat.inf, PyFloat.fin 0)]).length : ℚ)) - 1) * (-100))
      ∈ (print_comparison_table
        [("a", (100 : ℚ), 50, PyFloat.fin 2, PyFloat.fin (-50)),
         ("z", (1 : ℚ), 0, PyFloat.inf, PyFloat.fin 0)] "real_time").1)
    ∧ ((print_comparison_table
        [("u", (1 : ℚ), 1, PyFloat.fin 1, PyFloat.fin 0),
         ("v", (1 : ℚ), 1, PyFloat.fin (-1), PyFloat.fin 0)] "real_time").2
      = some (PyErr.zeroDivisionError "float division by zero")) :=
  ⟨⟨by decide,
    ((C6_average_over_finite
      [("a", (100 : ℚ), 50, PyFloat.fin 2, PyFloat.fin (-50)),
       ("z", (1 : ℚ), 0, PyFloat.inf, PyFloat.fin 0)] "real_time").2.2.1
      (by decide) (by simp [finiteNonzeroSpeedups])).1⟩,
    ((C6_average_over_finite
      [("u", (1 : ℚ), 1, PyFloat.fin 1, PyFloat.fin 0),
       ("v", (1 : ℚ), 1, PyFloat.fin (-1), PyFloat.fin 0)] "real_time").2.2.2
      (by decide) (by simp [finiteNonzeroSpeedups])).1⟩

/-! ## RevisionWorkspace claim -/

/-- Claim C8: requesting the workspace of a revision a second time is a no-op:
the same path is returned, no further external command (in particular no
second `git worktree add`) runs, and the path is the deterministic
location keyed by the resolved short ref under the fixed root. -/
theorem C8_workspace_reuse (resolve : String → String) (repo_root : String)
    (s : GitState) (ref : String) :
    (run_benchmarks_for_commit resolve repo_root
        (run_benchmarks_for_commit resolve repo_root s ref).2 ref).1
      = (run_benchmarks_for_commit resolve repo_root s ref).1
    ∧ (run_benchmarks_for_commit resolve repo_root
        (run_benchmarks_for_commit resolve repo_root s ref).2 ref).2.commands
      = (run_benchmarks_for_commit resolve repo_root s ref).2.commands
    ∧ (run_benchmarks_for_commit resolve repo_root s ref).1
      = worktreePath repo_root (resolve ref) := by
  by_cases hmem : worktreePath repo_root (resolve ref) ∈ s.existingPaths
  · simp [run_benchmarks_for_commit, hmem]
  · have hmem2 : worktreePath repo_root (resolve ref)
        ∈ (materialize s (worktreePath repo_root (resolve ref)) ref).existingPaths := by
      simp [materialize]
    simp [run_benchmarks_for_commit, hmem, hmem2]

end BenchRunner
